import Mathlib

/-!
Shallow embedding of the core logic of the Ai-resume repository:
`utils/skill_processor.py`, `utils/skill_matcher.py`, `utils/resume_parser.py`
and `backend/main.py`.

Modelling conventions:
* Python `str` is modelled as `List Char` (abbreviated `Str`), with ASCII
  semantics for the string methods involved (`lower`, `upper`, `strip`,
  `split`, `isalpha`); every input exercised by the repository is ASCII.
* Python `float` is modelled as `ℚ`; `round(x, 2)` is modelled as round
  half to even on hundredths, which is exact round-half-even arithmetic.
* Python `set` is modelled as `Finset (List Char)`; the code converts sets
  to lists in unspecified order, so set-valued outputs are kept as `Finset`s
  and only their cardinalities feed the numeric results, as in the source.
* Calls into libraries that are not part of the repository (sklearn's
  TF-IDF/cosine pipeline inside `calculate_similarity`, and the `re` engine
  inside `extract_education`) are modelled as oracle parameters; the code
  around them is embedded faithfully.
-/

set_option maxHeartbeats 1000000

abbrev Str := List Char

/-- ASCII whitespace, the character class matched by Python's `\s` and
stripped by `str.strip()`: space, tab, newline, carriage return, vertical
tab (11) and form feed (12). -/
def wsChar (c : Char) : Bool :=
  c = ' ' || c = '\t' || c = '\n' || c = '\r' || c.toNat = 11 || c.toNat = 12

/-- Python word characters (`\w`, ASCII): letters, digits, underscore. -/
def wordChar (c : Char) : Bool :=
  ('a' ≤ c && c ≤ 'z') || ('A' ≤ c && c ≤ 'Z') || ('0' ≤ c && c ≤ '9') || c = '_'

/-- Characters kept by the substitution of `SkillProcessor.normalize_skill`
that removes every character other than word characters, whitespace, plus,
hash, slash and hyphen. -/
def keptChar (c : Char) : Bool :=
  wordChar c || wsChar c || c = '+' || c = '#' || c = '/' || c = '-'

/-- Association-list lookup; models Python `dict` lookup for the small
constant tables of the repository. -/
def alook {α β : Type} [DecidableEq α] : List (α × β) → α → Option β
  | [], _ => none
  | (k, v) :: rest, a => if a = k then some v else alook rest a

theorem alook_some_mem {α β : Type} [DecidableEq α] :
    ∀ {ps : List (α × β)} {a : α} {b : β}, alook ps a = some b → b ∈ ps.map Prod.snd := by
  intro ps
  induction ps with
  | nil => intro a b h; simp [alook] at h
  | cons p rest ih =>
    intro a b h
    by_cases hk : a = p.1
    · simp [alook, hk] at h
      simp [← h]
    · simp only [alook, hk, if_neg] at h
      have : (p.1, p.2) = p := rfl
      simp only [List.map_cons]
      exact List.mem_cons_of_mem _ (ih (by simpa [hk] using h))

/-- The ASCII lowercase table: `str.lower()` maps each of A–Z to a–z and
leaves every other character unchanged. -/
def lowerPairs : List (Char × Char) :=
  [('A', 'a'), ('B', 'b'), ('C', 'c'), ('D', 'd'), ('E', 'e'), ('F', 'f'),
   ('G', 'g'), ('H', 'h'), ('I', 'i'), ('J', 'j'), ('K', 'k'), ('L', 'l'),
   ('M', 'm'), ('N', 'n'), ('O', 'o'), ('P', 'p'), ('Q', 'q'), ('R', 'r'),
   ('S', 's'), ('T', 't'), ('U', 'u'), ('V', 'v'), ('W', 'w'), ('X', 'x'),
   ('Y', 'y'), ('Z', 'z')]

/-- ASCII `str.lower()` on a single character. -/
def lowerChar (c : Char) : Char := (alook lowerPairs c).getD c

/-- The ASCII uppercase table, for `str.upper()`. -/
def upperPairs : List (Char × Char) :=
  [('a', 'A'), ('b', 'B'), ('c', 'C'), ('d', 'D'), ('e', 'E'), ('f', 'F'),
   ('g', 'G'), ('h', 'H'), ('i', 'I'), ('j', 'J'), ('k', 'K'), ('l', 'L'),
   ('m', 'M'), ('n', 'N'), ('o', 'O'), ('p', 'P'), ('q', 'Q'), ('r', 'R'),
   ('s', 'S'), ('t', 'T'), ('u', 'U'), ('v', 'V'), ('w', 'W'), ('x', 'X'),
   ('y', 'Y'), ('z', 'Z')]

/-- ASCII `str.upper()` on a single character. -/
def upperChar (c : Char) : Char := (alook upperPairs c).getD c

/-- `str.strip()`: drop leading and trailing whitespace. -/
def strip (l : Str) : Str :=
  ((l.dropWhile wsChar).reverse.dropWhile wsChar).reverse

/-- `re.sub(r'\s+', ' ', s)`: replace each maximal whitespace run by one
space. -/
def collapseWS : List Char → List Char
  | [] => []
  | [c] => if wsChar c then [' '] else [c]
  | c :: d :: rest =>
    if wsChar c then
      (if wsChar d then collapseWS (d :: rest) else ' ' :: collapseWS (d :: rest))
    else c :: collapseWS (d :: rest)

/-- `SkillProcessor.skill_synonyms` (`utils/skill_processor.py`). -/
def skill_synonyms : List (Str × Str) :=
  [("js".data, "javascript".data),
   ("ts".data, "typescript".data),
   ("py".data, "python".data),
   ("ml".data, "machine learning".data),
   ("ai".data, "artificial intelligence".data),
   ("dl".data, "deep learning".data),
   ("nlp".data, "natural language processing".data),
   ("cv".data, "computer vision".data),
   ("db".data, "database".data),
   ("sql".data, "structured query language".data),
   ("nosql".data, "non-relational database".data),
   ("aws".data, "amazon web services".data),
   ("gcp".data, "google cloud platform".data),
   ("k8s".data, "kubernetes".data),
   ("ci/cd".data, "continuous integration continuous deployment".data),
   ("rest".data, "restful api".data),
   ("api".data, "application programming interface".data)]

/-- The pre-synonym part of `SkillProcessor.normalize_skill`: lowercase,
strip, keep only `keptChar` characters, collapse whitespace. -/
def clean_skill (s : Str) : Str :=
  collapseWS ((strip (s.map lowerChar)).filter keptChar)

/-- `SkillProcessor.normalize_skill` (`utils/skill_processor.py` lines
35–58): clean, then replace the result by its synonym when it is a key of
`skill_synonyms`. -/
def normalize_skill (s : Str) : Str :=
  match alook skill_synonyms (clean_skill s) with
  | some v => v
  | none => clean_skill s

/-- The dedup loop of `SkillProcessor.normalize_skills`: keep a normalized
skill when it is non-empty and not seen before. -/
def dedupKeep : List Str → List Str → List Str
  | [], _ => []
  | s :: rest, seen =>
    if s = [] ∨ s ∈ seen then dedupKeep rest seen
    else s :: dedupKeep rest (s :: seen)

/-- `SkillProcessor.normalize_skills`: normalize each, drop empties,
deduplicate preserving first-seen order. -/
def normalize_skills (skills : List Str) : List Str :=
  dedupKeep (skills.map normalize_skill) []

/-- `SkillProcessor.skills_to_text`: space-join the normalized skills. -/
def skills_to_text (skills : List Str) : Str :=
  List.intercalate [' '] (normalize_skills skills)

theorem collapseWS_cons_not_ws {c : Char} (h : wsChar c = false) (l : List Char) :
    collapseWS (c :: l) = c :: collapseWS l := by
  cases l with
  | nil => simp [collapseWS, h]
  | cons d rest => simp [collapseWS, h]

theorem collapseWS_idem (l : List Char) : collapseWS (collapseWS l) = collapseWS l := by
  induction l using collapseWS.induct with
  | case1 => rfl
  | case2 c hc =>
    simp only [collapseWS, hc, if_true]
    decide
  | case3 c hc =>
    have hc' : wsChar c = false := by simpa using hc
    simp [collapseWS, hc']
  | case4 c d rest hc hd ih =>
    simp only [collapseWS, hc, hd, if_true]
    exact ih
  | case5 c d rest hc hd ih =>
    have hd' : wsChar d = false := by simpa using hd
    simp only [collapseWS, hc, hd', if_true, Bool.false_eq_true, if_false]
    rw [collapseWS_cons_not_ws hd' rest]
    have h2 : collapseWS (' ' :: d :: collapseWS rest) =
        ' ' :: collapseWS (d :: collapseWS rest) := by
      simp only [collapseWS, hd', Bool.false_eq_true, if_false]
      norm_num [wsChar]
    rw [h2, ← collapseWS_cons_not_ws hd' rest, ih]
  | case6 c d rest hc ih =>
    have hc' : wsChar c = false := by simpa using hc
    simp only [collapseWS, hc', Bool.false_eq_true, if_false]
    rw [collapseWS_cons_not_ws hc', ih]

theorem mem_collapseWS {c : Char} : ∀ {l : List Char}, c ∈ collapseWS l → c = ' ' ∨ c ∈ l := by
  intro l
  induction l using collapseWS.induct with
  | case1 => intro h; simp [collapseWS] at h
  | case2 a ha =>
    intro h
    simp [collapseWS, ha] at h
    exact Or.inl h
  | case3 a ha =>
    have ha' : wsChar a = false := by simpa using ha
    intro h
    simp [collapseWS, ha'] at h
    exact Or.inr (by simp [h])
  | case4 a d rest ha hd ih =>
    intro h
    simp only [collapseWS, ha, hd, if_true] at h
    rcases ih h with h1 | h1
    · exact Or.inl h1
    · exact Or.inr (List.mem_cons_of_mem _ h1)
  | case5 a d rest ha hd ih =>
    have hd' : wsChar d = false := by simpa using hd
    intro h
    simp only [collapseWS, ha, hd', if_true, Bool.false_eq_true, if_false] at h
    rcases List.mem_cons.mp h with h1 | h1
    · exact Or.inl h1
    · rcases ih h1 with h2 | h2
      · exact Or.inl h2
      · exact Or.inr (List.mem_cons_of_mem _ h2)
  | case6 a d rest ha ih =>
    have ha' : wsChar a = false := by simpa using ha
    intro h
    simp only [collapseWS, ha', Bool.false_eq_true, if_false] at h
    rcases List.mem_cons.mp h with h1 | h1
    · exact Or.inr (by simp [h1])
    · rcases ih h1 with h2 | h2
      · exact Or.inl h2
      · exact Or.inr (List.mem_cons_of_mem _ h2)

theorem mem_of_mem_dropWhile {α : Type} {p : α → Bool} :
    ∀ {l : List α} {c : α}, c ∈ l.dropWhile p → c ∈ l := by
  intro l
  induction l with
  | nil => intro c h; simp at h
  | cons a rest ih =>
    intro c h
    by_cases ha : p a
    · simp only [List.dropWhile_cons, ha, if_true] at h
      exact List.mem_cons_of_mem _ (ih h)
    · simp only [List.dropWhile_cons, ha, Bool.false_eq_true, if_false] at h
      exact h

theorem mem_of_mem_strip {c : Char} {l : Str} (h : c ∈ strip l) : c ∈ l := by
  unfold strip at h
  rw [List.mem_reverse] at h
  have h2 := mem_of_mem_dropWhile h
  rw [List.mem_reverse] at h2
  exact mem_of_mem_dropWhile h2

theorem map_id_of_fixed {α : Type} {f : α → α} :
    ∀ {l : List α}, (∀ c ∈ l, f c = c) → l.map f = l := by
  intro l
  induction l with
  | nil => intro _; rfl
  | cons a rest ih =>
    intro h
    simp only [List.map_cons]
    rw [h a (List.mem_cons_self a rest), ih fun c hc => h c (List.mem_cons_of_mem _ hc)]

theorem lowerChar_idem (c : Char) : lowerChar (lowerChar c) = lowerChar c := by
  unfold lowerChar
  cases h : alook lowerPairs c with
  | none => simp [h]
  | some v =>
    have hv : v ∈ lowerPairs.map Prod.snd := alook_some_mem h
    have hmain : ∀ x ∈ lowerPairs.map Prod.snd, alook lowerPairs x = none := by decide
    simp [h, hmain v hv]

theorem mem_clean_fixed_lower {c : Char} {s : Str} (h : c ∈ clean_skill s) :
    lowerChar c = c := by
  rcases mem_collapseWS h with h1 | h1
  · subst h1; decide
  · have h2 := mem_of_mem_strip (List.mem_of_mem_filter h1)
    rcases List.mem_map.mp h2 with ⟨c', _, rfl⟩
    exact lowerChar_idem c'

theorem mem_clean_kept {c : Char} {s : Str} (h : c ∈ clean_skill s) :
    keptChar c = true := by
  rcases mem_collapseWS h with h1 | h1
  · subst h1; decide
  · exact List.of_mem_filter h1

theorem clean_of_clean {s : Str} (h : strip (clean_skill s) = clean_skill s) :
    clean_skill (clean_skill s) = clean_skill s := by
  have hmap : (clean_skill s).map lowerChar = clean_skill s :=
    map_id_of_fixed fun c hc => mem_clean_fixed_lower hc
  have hfil : (clean_skill s).filter keptChar = clean_skill s :=
    List.filter_eq_self.mpr fun c hc => mem_clean_kept hc
  show collapseWS ((strip ((clean_skill s).map lowerChar)).filter keptChar) = clean_skill s
  rw [hmap, h, hfil]
  unfold clean_skill
  rw [collapseWS_idem]

theorem normalize_synonym_values_fixed :
    ∀ v ∈ skill_synonyms.map Prod.snd, normalize_skill v = v := by decide

/-- C3 (amended): normalization is idempotent on every string whose
normalized form carries no leading or trailing whitespace. -/
theorem normalize_skill_idem_of_stripped (s : Str)
    (h : strip (normalize_skill s) = normalize_skill s) :
    normalize_skill (normalize_skill s) = normalize_skill s := by
  cases hl : alook skill_synonyms (clean_skill s) with
  | some v =>
    have hv : v ∈ skill_synonyms.map Prod.snd := alook_some_mem hl
    have h2 : normalize_skill s = v := by unfold normalize_skill; rw [hl]
    rw [h2]
    exact normalize_synonym_values_fixed v hv
  | none =>
    have h2 : normalize_skill s = clean_skill s := by unfold normalize_skill; rw [hl]
    rw [h2] at h ⊢
    have h3 : clean_skill (clean_skill s) = clean_skill s := clean_of_clean h
    unfold normalize_skill
    rw [h3, hl]

/-- Witness for the amended C3 theorem at the concrete input "js". -/
theorem normalize_skill_idem_witness :
    strip (normalize_skill "js".data) = normalize_skill "js".data ∧
    normalize_skill (normalize_skill "js".data) = normalize_skill "js".data :=
  ⟨by decide, normalize_skill_idem_of_stripped _ (by decide)⟩

/-- C3 counterexample: the claim "normalize(normalize(s)) == normalize(s)
for every string s" is false at s = "@ a".  Removing '@' exposes a leading
space that the single collapse pass keeps (`normalize "@ a" = " a"`), and a
second normalization strips it (`normalize " a" = "a"`). -/
theorem normalize_skill_not_idem :
    normalize_skill (normalize_skill "@ a".data) ≠ normalize_skill "@ a".data := by
  decide

/-! Gap analyzer: `utils/skill_matcher.py`. -/

/-- Round half to even, the semantics of Python's built-in `round`
(modelled exactly on `ℚ`). -/
def roundHalfEven (q : ℚ) : ℤ :=
  if q - ⌊q⌋ < 1/2 then ⌊q⌋
  else if 1/2 < q - ⌊q⌋ then ⌊q⌋ + 1
  else if ⌊q⌋ % 2 = 0 then ⌊q⌋ else ⌊q⌋ + 1

/-- Python `round(x, 2)`: round half to even at two decimal places. -/
def round2 (q : ℚ) : ℚ := (roundHalfEven (q * 100) : ℚ) / 100

/-- The required-skills component (0–60) of
`SkillMatcher._calculate_job_fit_score`.  The source passes the list built
from the intersection set and only takes its `len`; since that length is the
cardinality of the intersection, the count is passed directly. -/
def required_score (matching_required : ℕ) (required_skills : List Str) : ℚ :=
  if required_skills ≠ [] then
    ((matching_required : ℚ) / (required_skills.length : ℚ)) * 60
  else 0

/-- The preferred-skills component (0–20) of
`SkillMatcher._calculate_job_fit_score` (same convention as
`required_score`). -/
def preferred_score (matching_preferred : ℕ) (preferred_skills : List Str) : ℚ :=
  if preferred_skills ≠ [] then
    ((matching_preferred : ℚ) / (preferred_skills.length : ℚ)) * 20
  else 0

/-- `SkillMatcher._calculate_job_fit_score` (lines 124–158): weighted sum of
the required, preferred and similarity components, rounded to 2 decimals. -/
def calculate_job_fit_score (matching_required : ℕ) (required_skills : List Str)
    (matching_preferred : ℕ) (preferred_skills : List Str) (similarity_score : ℚ) : ℚ :=
  round2 (required_score matching_required required_skills +
    preferred_score matching_preferred preferred_skills + similarity_score * 20)

/-- Oracle standing for sklearn's `TfidfVectorizer.fit_transform` followed by
`cosine_similarity` on the two joined skill strings: `some q` is a computed
cosine value, `none` models the raised exception caught by the source's
try/except. -/
abbrev SimOracle := Str → Str → Option ℚ

/-- `SkillMatcher.calculate_similarity` (lines 24–54): empty joined text on
either side gives 0.0; a vectorization failure (oracle `none`) gives 0.0;
otherwise the cosine value is returned. -/
def calculate_similarity (oracle : SimOracle) (resume_skills job_skills : List Str) : ℚ :=
  if skills_to_text resume_skills = [] ∨ skills_to_text job_skills = [] then 0
  else
    match oracle (skills_to_text resume_skills) (skills_to_text job_skills) with
    | some q => q
    | none => 0

/-- The dictionary returned by `SkillMatcher.analyze_skill_gap`.  The
set-valued entries are Python sets converted to lists in unspecified order,
so they are modelled as `Finset`s. -/
structure SkillGapResult where
  matching_required : Finset Str
  matching_preferred : Finset Str
  missing_required : Finset Str
  missing_preferred : Finset Str
  additional_skills : Finset Str
  similarity_score : ℚ
  job_fit_score : ℚ
  required_match_percentage : ℚ
  total_skills_matched : ℕ

/-- `SkillMatcher.analyze_skill_gap` (lines 56–122). -/
def analyze_skill_gap (oracle : SimOracle)
    (resume_skills required_skills preferred_skills : List Str) : SkillGapResult :=
  let resume_skills_norm := normalize_skills resume_skills
  let required_skills_norm := normalize_skills required_skills
  let preferred_skills_norm := normalize_skills preferred_skills
  let resume_set := resume_skills_norm.toFinset
  let required_set := required_skills_norm.toFinset
  let preferred_set := preferred_skills_norm.toFinset
  let matching_required := resume_set ∩ required_set
  let matching_preferred := resume_set ∩ preferred_set
  let similarity_score := calculate_similarity oracle resume_skills required_skills
  { matching_required := matching_required
    matching_preferred := matching_preferred
    missing_required := required_set \ resume_set
    missing_preferred := preferred_set \ resume_set
    additional_skills := (resume_set \ required_set) \ preferred_set
    similarity_score := similarity_score
    job_fit_score := calculate_job_fit_score matching_required.card
      required_skills_norm matching_preferred.card preferred_skills_norm
      similarity_score
    required_match_percentage :=
      if required_skills_norm ≠ [] then
        ((matching_required.card : ℚ) / (required_skills_norm.length : ℚ)) * 100
      else 0
    total_skills_matched := matching_required.card + matching_preferred.card }

theorem dedupKeep_not_mem_seen :
    ∀ (l seen : List Str), ∀ x ∈ dedupKeep l seen, x ∉ seen := by
  intro l
  induction l with
  | nil => intro seen x hx; simp [dedupKeep] at hx
  | cons s rest ih =>
    intro seen x hx
    by_cases hc : s = [] ∨ s ∈ seen
    · rw [dedupKeep, if_pos hc] at hx
      exact ih seen x hx
    · rw [dedupKeep, if_neg hc] at hx
      rcases List.mem_cons.mp hx with h1 | h1
      · subst h1
        exact fun hmem => hc (Or.inr hmem)
      · have h2 := ih (s :: seen) x h1
        exact fun hmem => h2 (List.mem_cons_of_mem _ hmem)

theorem dedupKeep_nodup : ∀ (l seen : List Str), (dedupKeep l seen).Nodup := by
  intro l
  induction l with
  | nil => intro seen; simp [dedupKeep]
  | cons s rest ih =>
    intro seen
    by_cases hc : s = [] ∨ s ∈ seen
    · rw [dedupKeep, if_pos hc]
      exact ih seen
    · rw [dedupKeep, if_neg hc]
      refine List.nodup_cons.mpr ⟨?_, ih (s :: seen)⟩
      intro hmem
      exact dedupKeep_not_mem_seen rest (s :: seen) s hmem (List.mem_cons_self s seen)

theorem normalize_skills_nodup (l : List Str) : (normalize_skills l).Nodup :=
  dedupKeep_nodup _ _

theorem roundHalfEven_le {q : ℚ} {n : ℤ} (h : q ≤ (n : ℚ)) : roundHalfEven q ≤ n := by
  have hfl : ⌊q⌋ ≤ n := by
    have := Int.floor_le_floor h
    simpa using this
  have hup : ⌊q⌋ < q → ⌊q⌋ + 1 ≤ n := by
    intro hlt
    have h1 : ⌊q⌋ + 1 ≤ ⌈q⌉ := Int.add_one_le_ceil_iff.mpr hlt
    have h2 : ⌈q⌉ ≤ n := Int.ceil_le.mpr h
    omega
  unfold roundHalfEven
  split_ifs with h1 h2 h3
  · exact hfl
  · refine hup ?_
    have h4 : (0 : ℚ) < 1/2 := by norm_num
    have h5 := Int.floor_le q
    linarith
  · exact hfl
  · refine hup ?_
    have h4 : q - ⌊q⌋ = 1/2 := by linarith
    linarith

theorem roundHalfEven_ge {q : ℚ} {n : ℤ} (h : (n : ℚ) ≤ q) : n ≤ roundHalfEven q := by
  have hfl : n ≤ ⌊q⌋ := Int.le_floor.mpr h
  unfold roundHalfEven
  split_ifs <;> omega

theorem roundHalfEven_intCast (n : ℤ) : roundHalfEven (n : ℚ) = n :=
  le_antisymm (roundHalfEven_le le_rfl) (roundHalfEven_ge le_rfl)

theorem round2_le {q : ℚ} {n : ℤ} (h : q ≤ (n : ℚ)) : round2 q ≤ (n : ℚ) := by
  have h1 : q * 100 ≤ ((n * 100 : ℤ) : ℚ) := by push_cast; linarith
  have h2 : (roundHalfEven (q * 100) : ℚ) ≤ ((n * 100 : ℤ) : ℚ) := by
    exact_mod_cast roundHalfEven_le h1
  unfold round2
  rw [div_le_iff₀ (by norm_num : (0:ℚ) < 100)]
  push_cast at h2 ⊢
  linarith

theorem round2_ge {q : ℚ} {n : ℤ} (h : (n : ℚ) ≤ q) : (n : ℚ) ≤ round2 q := by
  have h1 : ((n * 100 : ℤ) : ℚ) ≤ q * 100 := by push_cast; linarith
  have h2 : ((n * 100 : ℤ) : ℚ) ≤ (roundHalfEven (q * 100) : ℚ) := by
    exact_mod_cast roundHalfEven_ge h1
  unfold round2
  rw [le_div_iff₀ (by norm_num : (0:ℚ) < 100)]
  push_cast at h2 ⊢
  linarith

theorem round2_intCast (n : ℤ) : round2 ((n : ℤ) : ℚ) = (n : ℚ) := by
  have h1 : ((n : ℤ) : ℚ) * 100 = ((n * 100 : ℤ) : ℚ) := by push_cast; ring
  unfold round2
  rw [h1, roundHalfEven_intCast]
  push_cast
  field_simp

theorem matching_card_le (A B : List Str) :
    ((normalize_skills A).toFinset ∩ (normalize_skills B).toFinset).card ≤
      (normalize_skills B).length := by
  have h1 : ((normalize_skills A).toFinset ∩ (normalize_skills B).toFinset).card ≤
      (normalize_skills B).toFinset.card :=
    Finset.card_le_card Finset.inter_subset_right
  have h2 : (normalize_skills B).toFinset.card = (normalize_skills B).length :=
    List.toFinset_card_of_nodup (normalize_skills_nodup B)
  omega

theorem required_score_nonneg (m : ℕ) (r : List Str) : 0 ≤ required_score m r := by
  unfold required_score
  split_ifs
  · positivity
  · exact le_refl 0

theorem required_score_le (m : ℕ) (r : List Str) (h : m ≤ r.length) :
    required_score m r ≤ 60 := by
  unfold required_score
  split_ifs with hr
  · have h1 : (m : ℚ) ≤ (r.length : ℚ) := by exact_mod_cast h
    have h2 : (m : ℚ) / (r.length : ℚ) ≤ 1 := div_le_one_of_le₀ h1 (by positivity)
    linarith
  · norm_num

theorem preferred_score_nonneg (m : ℕ) (r : List Str) : 0 ≤ preferred_score m r := by
  unfold preferred_score
  split_ifs
  · positivity
  · exact le_refl 0

theorem preferred_score_le (m : ℕ) (r : List Str) (h : m ≤ r.length) :
    preferred_score m r ≤ 20 := by
  unfold preferred_score
  split_ifs with hr
  · have h1 : (m : ℚ) ≤ (r.length : ℚ) := by exact_mod_cast h
    have h2 : (m : ℚ) / (r.length : ℚ) ≤ 1 := div_le_one_of_le₀ h1 (by positivity)
    linarith
  · norm_num

theorem calculate_similarity_bounds (oracle : SimOracle)
    (hor : ∀ a b q, oracle a b = some q → 0 ≤ q ∧ q ≤ 1) (r j : List Str) :
    0 ≤ calculate_similarity oracle r j ∧ calculate_similarity oracle r j ≤ 1 := by
  unfold calculate_similarity
  split_ifs with h
  · norm_num
  · cases ho : oracle (skills_to_text r) (skills_to_text j) with
    | none => exact ⟨le_rfl, by norm_num⟩
    | some q => exact hor _ _ q ho

/-- C1: `analyze_skill_gap` computes `matching_required` as the intersection
of the normalized resume and required sets (hence a subset of it),
`missing_required` as their difference, and their union is the full
normalized required set. -/
theorem analyze_skill_gap_set_algebra (oracle : SimOracle) (A B P : List Str) :
    (analyze_skill_gap oracle A B P).matching_required =
      (normalize_skills A).toFinset ∩ (normalize_skills B).toFinset ∧
    (analyze_skill_gap oracle A B P).matching_required ⊆
      (normalize_skills A).toFinset ∩ (normalize_skills B).toFinset ∧
    (analyze_skill_gap oracle A B P).missing_required =
      (normalize_skills B).toFinset \ (normalize_skills A).toFinset ∧
    (analyze_skill_gap oracle A B P).matching_required ∪
      (analyze_skill_gap oracle A B P).missing_required =
      (normalize_skills B).toFinset := by
  refine ⟨rfl, Finset.Subset.refl _, rfl, ?_⟩
  show ((normalize_skills A).toFinset ∩ (normalize_skills B).toFinset) ∪
      ((normalize_skills B).toFinset \ (normalize_skills A).toFinset) =
      (normalize_skills B).toFinset
  ext x
  simp only [Finset.mem_union, Finset.mem_inter, Finset.mem_sdiff]
  tauto

/-- C2: the job fit score always lies in [0, 100]; the required component is
at most 60, the preferred component at most 20 and the similarity component
at most 20, for any oracle producing cosine values in [0, 1]. -/
theorem job_fit_score_bounds (oracle : SimOracle)
    (hor : ∀ a b q, oracle a b = some q → 0 ≤ q ∧ q ≤ 1) (A B P : List Str) :
    (0 ≤ (analyze_skill_gap oracle A B P).job_fit_score ∧
      (analyze_skill_gap oracle A B P).job_fit_score ≤ 100) ∧
    required_score ((normalize_skills A).toFinset ∩ (normalize_skills B).toFinset).card
      (normalize_skills B) ≤ 60 ∧
    preferred_score ((normalize_skills A).toFinset ∩ (normalize_skills P).toFinset).card
      (normalize_skills P) ≤ 20 ∧
    (analyze_skill_gap oracle A B P).similarity_score * 20 ≤ 20 := by
  have hsim := calculate_similarity_bounds oracle hor A B
  have hrs0 := required_score_nonneg
    ((normalize_skills A).toFinset ∩ (normalize_skills B).toFinset).card (normalize_skills B)
  have hrs1 := required_score_le
    ((normalize_skills A).toFinset ∩ (normalize_skills B).toFinset).card (normalize_skills B)
    (matching_card_le A B)
  have hps0 := preferred_score_nonneg
    ((normalize_skills A).toFinset ∩ (normalize_skills P).toFinset).card (normalize_skills P)
  have hps1 := preferred_score_le
    ((normalize_skills A).toFinset ∩ (normalize_skills P).toFinset).card (normalize_skills P)
    (matching_card_le A P)
  have hfit : (analyze_skill_gap oracle A B P).job_fit_score =
      calculate_job_fit_score
        ((normalize_skills A).toFinset ∩ (normalize_skills B).toFinset).card
        (normalize_skills B)
        ((normalize_skills A).toFinset ∩ (normalize_skills P).toFinset).card
        (normalize_skills P)
        (calculate_similarity oracle A B) := rfl
  have hsimf : (analyze_skill_gap oracle A B P).similarity_score =
      calculate_similarity oracle A B := rfl
  refine ⟨⟨?_, ?_⟩, hrs1, hps1, ?_⟩
  · rw [hfit]
    unfold calculate_job_fit_score
    have h := round2_ge (q := required_score
        ((normalize_skills A).toFinset ∩ (normalize_skills B).toFinset).card
        (normalize_skills B) +
      preferred_score ((normalize_skills A).toFinset ∩ (normalize_skills P).toFinset).card
        (normalize_skills P) + calculate_similarity oracle A B * 20) (n := 0)
      (by push_cast; nlinarith [hsim.1, hsim.2])
    push_cast at h
    linarith
  · rw [hfit]
    unfold calculate_job_fit_score
    have h := round2_le (q := required_score
        ((normalize_skills A).toFinset ∩ (normalize_skills B).toFinset).card
        (normalize_skills B) +
      preferred_score ((normalize_skills A).toFinset ∩ (normalize_skills P).toFinset).card
        (normalize_skills P) + calculate_similarity oracle A B * 20) (n := 100)
      (by push_cast; nlinarith [hsim.1, hsim.2])
    push_cast at h
    linarith
  · rw [hsimf]
    nlinarith [hsim.2]

/-- Witness for C2 at a concrete oracle and concrete skill lists. -/
theorem job_fit_score_bounds_witness :
    (0 ≤ (analyze_skill_gap (fun _ _ => none) ["python".data] ["python".data] []).job_fit_score ∧
      (analyze_skill_gap (fun _ _ => none) ["python".data] ["python".data] []).job_fit_score ≤ 100) ∧
    required_score
      ((normalize_skills ["python".data]).toFinset ∩
        (normalize_skills ["python".data]).toFinset).card
      (normalize_skills ["python".data]) ≤ 60 ∧
    preferred_score
      ((normalize_skills ["python".data]).toFinset ∩ (normalize_skills []).toFinset).card
      (normalize_skills []) ≤ 20 ∧
    (analyze_skill_gap (fun _ _ => none) ["python".data] ["python".data] []).similarity_score *
      20 ≤ 20 :=
  job_fit_score_bounds (fun _ _ => none) (fun a b q h => by simp at h)
    ["python".data] ["python".data] []

/-- C4 (amended): for every skill list L whose normalization is non-empty,
analyzing L against itself with no preferred skills leaves no missing
required skill, gives a 100% required match, a fit score of at least 60,
and exactly 80 when the similarity value is 1. -/
theorem perfect_match (oracle : SimOracle)
    (hor : ∀ a b q, oracle a b = some q → 0 ≤ q ∧ q ≤ 1)
    (L : List Str) (hne : normalize_skills L ≠ []) :
    (analyze_skill_gap oracle L L []).missing_required = ∅ ∧
    (analyze_skill_gap oracle L L []).required_match_percentage = 100 ∧
    60 ≤ (analyze_skill_gap oracle L L []).job_fit_score ∧
    ((analyze_skill_gap oracle L L []).similarity_score = 1 →
      (analyze_skill_gap oracle L L []).job_fit_score = 80) := by
  have hS : (normalize_skills L).toFinset ∩ (normalize_skills L).toFinset =
      (normalize_skills L).toFinset := Finset.inter_self _
  have hcard : (normalize_skills L).toFinset.card = (normalize_skills L).length :=
    List.toFinset_card_of_nodup (normalize_skills_nodup L)
  have hlen : (normalize_skills L).length ≠ 0 := by
    intro h0
    exact hne (List.length_eq_zero.mp h0)
  have hlenQ : ((normalize_skills L).length : ℚ) ≠ 0 := by exact_mod_cast hlen
  have hrs : required_score
      ((normalize_skills L).toFinset ∩ (normalize_skills L).toFinset).card
      (normalize_skills L) = 60 := by
    unfold required_score
    rw [if_pos hne, hS, hcard, div_self hlenQ, one_mul]
  have hps : preferred_score
      ((normalize_skills L).toFinset ∩ (normalize_skills ([] : List Str)).toFinset).card
      (normalize_skills ([] : List Str)) = 0 := by
    unfold preferred_score
    norm_num [normalize_skills, dedupKeep]
  have hfit : (analyze_skill_gap oracle L L []).job_fit_score =
      calculate_job_fit_score
        ((normalize_skills L).toFinset ∩ (normalize_skills L).toFinset).card
        (normalize_skills L)
        ((normalize_skills L).toFinset ∩ (normalize_skills ([] : List Str)).toFinset).card
        (normalize_skills ([] : List Str))
        (calculate_similarity oracle L L) := rfl
  have hpct : (analyze_skill_gap oracle L L []).required_match_percentage =
      if normalize_skills L ≠ [] then
        ((((normalize_skills L).toFinset ∩ (normalize_skills L).toFinset).card : ℚ) /
          ((normalize_skills L).length : ℚ)) * 100
      else 0 := rfl
  have hsim := calculate_similarity_bounds oracle hor L L
  refine ⟨Finset.sdiff_self _, ?_, ?_, ?_⟩
  · rw [hpct, if_pos hne, hS, hcard, div_self hlenQ, one_mul]
  · rw [hfit]
    unfold calculate_job_fit_score
    rw [hrs, hps]
    have h := round2_ge
      (q := 60 + 0 + calculate_similarity oracle L L * 20) (n := 60)
      (by push_cast; nlinarith [hsim.1])
    push_cast at h
    linarith
  · intro hsim1
    have hsim1' : calculate_similarity oracle L L = 1 := hsim1
    rw [hfit]
    unfold calculate_job_fit_score
    rw [hrs, hps, hsim1']
    calc round2 (60 + 0 + 1 * 20) = round2 (((80 : ℤ) : ℚ)) := by norm_num
    _ = ((80 : ℤ) : ℚ) := round2_intCast 80
    _ = 80 := by norm_cast

/-- Witness for the amended C4 theorem at L = ["python"] with an oracle that
returns cosine 1. -/
theorem perfect_match_witness :
    normalize_skills ["python".data] ≠ [] ∧
    (analyze_skill_gap (fun _ _ => some 1) ["python".data] ["python".data] []).missing_required = ∅ ∧
    (analyze_skill_gap (fun _ _ => some 1) ["python".data] ["python".data]
      []).required_match_percentage = 100 ∧
    60 ≤ (analyze_skill_gap (fun _ _ => some 1) ["python".data] ["python".data]
      []).job_fit_score := by
  have hne : normalize_skills ["python".data] ≠ [] := by decide
  have hor : ∀ a b q, (fun (_ _ : Str) => some (1 : ℚ)) a b = some q → 0 ≤ q ∧ q ≤ 1 := by
    intro a b q h
    simp only [Option.some.injEq] at h
    subst h
    norm_num
  have h := perfect_match (fun _ _ => some 1) hor ["python".data] hne
  exact ⟨hne, h.1, h.2.1, h.2.2.1⟩

/-- C4 counterexample: ["@"] is a non-empty list, but it normalizes to the
empty list, so analyzing it against itself yields a 0% required match and a
fit score of 0 rather than 100% and a score of at least 60. -/
theorem perfect_match_counterexample :
    ["@".data] ≠ ([] : List Str) ∧
    (analyze_skill_gap (fun _ _ => some 1) ["@".data] ["@".data]
      []).required_match_percentage = 0 ∧
    (analyze_skill_gap (fun _ _ => some 1) ["@".data] ["@".data] []).job_fit_score = 0 := by
  have hnorm : normalize_skills ["@".data] = [] := by decide
  have hst : skills_to_text ["@".data] = [] := by decide
  have hpct : (analyze_skill_gap (fun _ _ => some 1) ["@".data] ["@".data]
      []).required_match_percentage =
      if normalize_skills ["@".data] ≠ [] then
        ((((normalize_skills ["@".data]).toFinset ∩
            (normalize_skills ["@".data]).toFinset).card : ℚ) /
          ((normalize_skills ["@".data]).length : ℚ)) * 100
      else 0 := rfl
  have hsim : calculate_similarity (fun _ _ => some 1) ["@".data] ["@".data] = 0 := by
    unfold calculate_similarity
    rw [if_pos (Or.inl hst)]
  have hfit : (analyze_skill_gap (fun _ _ => some 1) ["@".data] ["@".data]
      []).job_fit_score =
      calculate_job_fit_score
        ((normalize_skills ["@".data]).toFinset ∩ (normalize_skills ["@".data]).toFinset).card
        (normalize_skills ["@".data])
        ((normalize_skills ["@".data]).toFinset ∩
          (normalize_skills ([] : List Str)).toFinset).card
        (normalize_skills ([] : List Str))
        (calculate_similarity (fun _ _ => some 1) ["@".data] ["@".data]) := rfl
  refine ⟨by simp, ?_, ?_⟩
  · rw [hpct, if_neg (by simp [hnorm])]
  · rw [hfit, hsim, hnorm]
    unfold calculate_job_fit_score required_score preferred_score
    norm_num [normalize_skills, dedupKeep]
    have h0 := round2_intCast 0
    push_cast at h0
    simpa using h0

/-- C5: the analyzer degrades gracefully instead of erroring: the similarity
is 0 whenever either joined skill string is empty, a vectorization failure
(oracle `none`) is converted to similarity 0, and an empty normalized
required set gives a 0 required-match percentage. -/
theorem analyze_graceful (oracle : SimOracle) (R J P : List Str) :
    ((skills_to_text R = [] ∨ skills_to_text J = []) →
      calculate_similarity oracle R J = 0) ∧
    (oracle (skills_to_text R) (skills_to_text J) = none →
      calculate_similarity oracle R J = 0) ∧
    (normalize_skills J = [] →
      (analyze_skill_gap oracle R J P).required_match_percentage = 0) := by
  refine ⟨?_, ?_, ?_⟩
  · intro h
    unfold calculate_similarity
    rw [if_pos h]
  · intro h
    unfold calculate_similarity
    split_ifs with hh
    · rfl
    · rw [h]
  · intro h
    have hpct : (analyze_skill_gap oracle R J P).required_match_percentage =
        if normalize_skills J ≠ [] then
          ((((normalize_skills R).toFinset ∩ (normalize_skills J).toFinset).card : ℚ) /
            ((normalize_skills J).length : ℚ)) * 100
        else 0 := rfl
    rw [hpct, if_neg (by simp [h])]

/-- Witness for C5 with empty inputs and a failing oracle. -/
theorem analyze_graceful_witness :
    calculate_similarity (fun _ _ => none) ([] : List Str) ([] : List Str) = 0 ∧
    (analyze_skill_gap (fun _ _ => none) ([] : List Str) ([] : List Str)
      ([] : List Str)).required_match_percentage = 0 := by
  have h := analyze_graceful (fun _ _ => none) [] [] []
  exact ⟨h.1 (Or.inl rfl), h.2.2 rfl⟩

/-- C10: `total_skills_matched` is always the size of the required match set
plus the size of the preferred match set, and since those sets are not
disjoint the count can exceed the number of distinct resume skills that
matched any requested skill (witnessed when the same skill is both required
and preferred). -/
theorem total_skills_matched_spec (oracle : SimOracle) (A B P : List Str) :
    (analyze_skill_gap oracle A B P).total_skills_matched =
      ((normalize_skills A).toFinset ∩ (normalize_skills B).toFinset).card +
        ((normalize_skills A).toFinset ∩ (normalize_skills P).toFinset).card ∧
    ((normalize_skills ["python".data]).toFinset ∩
        ((normalize_skills ["python".data]).toFinset ∪
          (normalize_skills ["python".data]).toFinset)).card <
      (analyze_skill_gap (fun _ _ => none) ["python".data] ["python".data]
        ["python".data]).total_skills_matched := by
  refine ⟨rfl, ?_⟩
  decide

/-! Recommendation generator: `SkillMatcher.generate_recommendations`
(`utils/skill_matcher.py` lines 160–225). -/

/-- The "excellent" headline (score at least 80). -/
def hExcellent : Str := "[EXCELLENT] You meet most requirements.".data

/-- The "good" headline (score in [60, 80)). -/
def hGood : Str := "[GOOD] Consider strengthening a few areas.".data

/-- The "moderate" headline (score in [40, 60)). -/
def hModerate : Str := "[MODERATE] Significant skill gaps to address.".data

/-- The "low" headline (score below 40). -/
def hLow : Str := "[LOW] Major skill development needed.".data

/-- The "[PRIORITY]" line listing the first 5 missing required skills. -/
def priorityLine (missing_required : List Str) : Str :=
  "[PRIORITY] Learn these required skills - ".data ++
    List.intercalate ", ".data (missing_required.take 5)

/-- The "[BONUS]" line listing the first 3 missing preferred skills. -/
def bonusLine (missing_preferred : List Str) : Str :=
  "[BONUS] Consider learning - ".data ++
    List.intercalate ", ".data (missing_preferred.take 3)

def advCourses : Str :=
  "[ADVICE] Take online courses or certifications in missing skills".data

def advJunior : Str :=
  "[ADVICE] Consider entry-level or junior positions to build experience".data

def advProjects : Str :=
  "[ADVICE] Build projects showcasing the missing skills".data

def advNetwork : Str :=
  "[ADVICE] Network with professionals in this field".data

def advHighlight : Str :=
  "[ADVICE] Highlight your matching skills prominently in your resume".data

def advInterviews : Str :=
  "[ADVICE] Prepare to discuss your relevant experience in interviews".data

/-- `SkillMatcher.generate_recommendations`: one score-band headline, then
an optional priority line, an optional bonus line, and a two-line
score-banded advice block. -/
def generate_recommendations (missing_required missing_preferred : List Str)
    (job_fit_score : ℚ) : List Str :=
  (if 80 ≤ job_fit_score then [hExcellent]
   else if 60 ≤ job_fit_score then [hGood]
   else if 40 ≤ job_fit_score then [hModerate]
   else [hLow]) ++
  (if missing_required ≠ [] then [priorityLine missing_required] else []) ++
  (if missing_preferred ≠ [] ∧ job_fit_score < 90 then [bonusLine missing_preferred]
   else []) ++
  (if job_fit_score < 50 then [advCourses, advJunior]
   else if job_fit_score < 70 then [advProjects, advNetwork]
   else [advHighlight, advInterviews])

/-- The headline selected by the score band of `generate_recommendations`. -/
def bandHeadline (s : ℚ) : Str :=
  if 80 ≤ s then hExcellent
  else if 60 ≤ s then hGood
  else if 40 ≤ s then hModerate
  else hLow

/-- Whether a recommendation line is one of the four headlines. -/
def isHeadline (l : Str) : Bool :=
  decide (l = hExcellent) || decide (l = hGood) ||
    decide (l = hModerate) || decide (l = hLow)

theorem priorityLine_not_headline (ms : List Str) :
    isHeadline (priorityLine ms) = false := by
  have h1 : (priorityLine ms).get? 1 = some 'P' := rfl
  have e1 : priorityLine ms ≠ hExcellent := by
    intro h; rw [h] at h1; exact absurd h1 (by decide)
  have e2 : priorityLine ms ≠ hGood := by
    intro h; rw [h] at h1; exact absurd h1 (by decide)
  have e3 : priorityLine ms ≠ hModerate := by
    intro h; rw [h] at h1; exact absurd h1 (by decide)
  have e4 : priorityLine ms ≠ hLow := by
    intro h; rw [h] at h1; exact absurd h1 (by decide)
  simp [isHeadline, e1, e2, e3, e4]

theorem bonusLine_not_headline (ms : List Str) :
    isHeadline (bonusLine ms) = false := by
  have h1 : (bonusLine ms).get? 1 = some 'B' := rfl
  have e1 : bonusLine ms ≠ hExcellent := by
    intro h; rw [h] at h1; exact absurd h1 (by decide)
  have e2 : bonusLine ms ≠ hGood := by
    intro h; rw [h] at h1; exact absurd h1 (by decide)
  have e3 : bonusLine ms ≠ hModerate := by
    intro h; rw [h] at h1; exact absurd h1 (by decide)
  have e4 : bonusLine ms ≠ hLow := by
    intro h; rw [h] at h1; exact absurd h1 (by decide)
  simp [isHeadline, e1, e2, e3, e4]

theorem advice_not_headline :
    isHeadline advCourses = false ∧ isHeadline advJunior = false ∧
    isHeadline advProjects = false ∧ isHeadline advNetwork = false ∧
    isHeadline advHighlight = false ∧ isHeadline advInterviews = false := by
  decide

/-- C7: the recommendation list is non-empty, starts with the headline of
the score band, contains exactly that one headline, and the band mapping is
the one claimed (at least 80 excellent, [60,80) good, [40,60) moderate,
below 40 low). -/
theorem recommendations_headline (missing_required missing_preferred : List Str)
    (job_fit_score : ℚ) :
    (generate_recommendations missing_required missing_preferred job_fit_score).head? =
      some (bandHeadline job_fit_score) ∧
    (generate_recommendations missing_required missing_preferred job_fit_score).filter
      isHeadline = [bandHeadline job_fit_score] ∧
    (80 ≤ job_fit_score → bandHeadline job_fit_score = hExcellent) ∧
    (60 ≤ job_fit_score ∧ job_fit_score < 80 → bandHeadline job_fit_score = hGood) ∧
    (40 ≤ job_fit_score ∧ job_fit_score < 60 → bandHeadline job_fit_score = hModerate) ∧
    (job_fit_score < 40 → bandHeadline job_fit_score = hLow) := by
  have hgen : generate_recommendations missing_required missing_preferred job_fit_score =
      bandHeadline job_fit_score ::
        ((if missing_required ≠ [] then [priorityLine missing_required] else []) ++
         (if missing_preferred ≠ [] ∧ job_fit_score < 90 then [bonusLine missing_preferred]
          else []) ++
         (if job_fit_score < 50 then [advCourses, advJunior]
          else if job_fit_score < 70 then [advProjects, advNetwork]
          else [advHighlight, advInterviews])) := by
    unfold generate_recommendations bandHeadline
    split_ifs <;> rfl
  have hhl : isHeadline (bandHeadline job_fit_score) = true := by
    unfold bandHeadline
    split_ifs <;> decide
  have hrest : List.filter isHeadline
      ((if missing_required ≠ [] then [priorityLine missing_required] else []) ++
       (if missing_preferred ≠ [] ∧ job_fit_score < 90 then [bonusLine missing_preferred]
        else []) ++
       (if job_fit_score < 50 then [advCourses, advJunior]
        else if job_fit_score < 70 then [advProjects, advNetwork]
        else [advHighlight, advInterviews])) = [] := by
    obtain ⟨a1, a2, a3, a4, a5, a6⟩ := advice_not_headline
    split_ifs <;>
      simp [List.filter_append, List.filter, priorityLine_not_headline,
        bonusLine_not_headline, a1, a2, a3, a4, a5, a6]
  refine ⟨?_, ?_, ?_, ?_, ?_, ?_⟩
  · rw [hgen]; rfl
  · rw [hgen, List.filter_cons_of_pos hhl, hrest]
  · intro h
    unfold bandHeadline
    rw [if_pos h]
  · rintro ⟨ha, hb⟩
    unfold bandHeadline
    rw [if_neg (by linarith), if_pos ha]
  · rintro ⟨ha, hb⟩
    unfold bandHeadline
    rw [if_neg (by linarith), if_neg (by linarith), if_pos ha]
  · intro h
    unfold bandHeadline
    rw [if_neg (by linarith), if_neg (by linarith), if_neg (by linarith)]

/-- Witness for C7 at a concrete recommendation call with score 85. -/
theorem recommendations_headline_witness :
    (generate_recommendations ["python".data] [] 85).head? = some (bandHeadline 85) ∧
    (generate_recommendations ["python".data] [] 85).filter isHeadline =
      [bandHeadline 85] ∧
    bandHeadline 85 = hExcellent := by
  have h := recommendations_headline ["python".data] [] 85
  exact ⟨h.1, h.2.1, h.2.2.1 (by norm_num)⟩

/-! Batch ranker: `batch_match_resume` in `backend/main.py` (lines 199–252),
with `JobRequirement` from `backend/models.py`. -/

/-- `JobRequirement` (`backend/models.py`): the endpoint replaces a missing
`preferred_skills` by `[]` (`job_req.preferred_skills or []`), so the field
is stored already defaulted; `min_experience` and `education_required` are
accepted but never read by the ranker and are omitted. -/
structure JobRequirement where
  job_title : Str
  required_skills : List Str
  preferred_skills : List Str
  deriving DecidableEq

/-- One row of the `/batch_match` response. -/
structure MatchRow where
  job_title : Str
  fit_score : ℚ
  similarity_score : ℚ
  required_match_percentage : ℚ
  skills_matched : ℕ
  missing_required_count : ℕ

/-- The row built for one job inside the loop of `batch_match_resume`. -/
def matchRow (oracle : SimOracle) (resume_skills : List Str)
    (job : JobRequirement) : MatchRow :=
  { job_title := job.job_title
    fit_score := (analyze_skill_gap oracle resume_skills job.required_skills
      job.preferred_skills).job_fit_score
    similarity_score := (analyze_skill_gap oracle resume_skills job.required_skills
      job.preferred_skills).similarity_score
    required_match_percentage := (analyze_skill_gap oracle resume_skills
      job.required_skills job.preferred_skills).required_match_percentage
    skills_matched := (analyze_skill_gap oracle resume_skills job.required_skills
      job.preferred_skills).total_skills_matched
    missing_required_count := (analyze_skill_gap oracle resume_skills
      job.required_skills job.preferred_skills).missing_required.card }

/-- The ordering of
`results.sort(key=lambda x: x['fit_score'], reverse=True)`. -/
def fitGE (a b : MatchRow) : Prop := b.fit_score ≤ a.fit_score

instance : DecidableRel fitGE :=
  fun a b => inferInstanceAs (Decidable (b.fit_score ≤ a.fit_score))

instance : IsTotal MatchRow fitGE := ⟨fun a b => le_total b.fit_score a.fit_score⟩

instance : IsTrans MatchRow fitGE := ⟨fun _ _ _ h1 h2 => le_trans h2 h1⟩

/-- `batch_match_resume` (`backend/main.py` lines 199–252): reject empty
inputs with an HTTP 400 error, otherwise build one row per job and sort
descending by fit score.  Python's `list.sort` with `reverse=True` is a
stable descending sort, which is computed exactly by
`List.insertionSort fitGE`. -/
def batch_match_resume (oracle : SimOracle) (resume_skills : List Str)
    (job_requirements : List JobRequirement) : Except Str (List MatchRow) :=
  if resume_skills = [] then Except.error "Resume skills cannot be empty".data
  else if job_requirements = [] then
    Except.error "Job requirements list cannot be empty".data
  else
    Except.ok (List.insertionSort fitGE
      (job_requirements.map (matchRow oracle resume_skills)))

theorem filter_fit_orderedInsert (c : ℚ) (a : MatchRow) (l : List MatchRow) :
    (List.orderedInsert fitGE a l).filter (fun x => decide (x.fit_score = c)) =
      if a.fit_score = c then
        a :: l.filter (fun x => decide (x.fit_score = c))
      else l.filter (fun x => decide (x.fit_score = c)) := by
  induction l with
  | nil =>
    by_cases hc : a.fit_score = c <;> simp [List.orderedInsert, hc]
  | cons b bs ih =>
    by_cases hr : fitGE a b
    · by_cases hc : a.fit_score = c <;> by_cases hb : b.fit_score = c <;>
        simp [List.orderedInsert, hr, List.filter_cons, hc, hb]
    · have hab : a.fit_score < b.fit_score := not_le.mp hr
      by_cases hc : a.fit_score = c
      · have hb : ¬ b.fit_score = c := by
          rw [hc] at hab
          intro h
          rw [h] at hab
          exact lt_irrefl c hab
        simp [List.orderedInsert, hr, List.filter_cons, hb, hc, ih]
      · by_cases hb : b.fit_score = c <;>
          simp [List.orderedInsert, hr, List.filter_cons, hb, hc, ih]

theorem filter_fit_insertionSort (c : ℚ) (l : List MatchRow) :
    (List.insertionSort fitGE l).filter (fun x => decide (x.fit_score = c)) =
      l.filter (fun x => decide (x.fit_score = c)) := by
  induction l with
  | nil => rfl
  | cons a l ih =>
    simp only [List.insertionSort]
    rw [filter_fit_orderedInsert, ih, List.filter_cons]
    by_cases hc : a.fit_score = c
    · simp [hc]
    · simp [hc]

/-- C6: whenever `batch_match_resume` succeeds, its output has one row per
input job (it is a permutation of the per-job rows), it is sorted in
descending order of `fit_score`, and the sort is stable: restricting the
output to any fixed fit score gives exactly the input rows with that score
in their original relative order. -/
theorem batch_match_sorted (oracle : SimOracle) (resume_skills : List Str)
    (job_requirements : List JobRequirement) (out : List MatchRow)
    (h : batch_match_resume oracle resume_skills job_requirements = Except.ok out) :
    out.Perm (job_requirements.map (matchRow oracle resume_skills)) ∧
    List.Sorted fitGE out ∧
    ∀ c : ℚ, out.filter (fun x => decide (x.fit_score = c)) =
      (job_requirements.map (matchRow oracle resume_skills)).filter
        (fun x => decide (x.fit_score = c)) := by
  unfold batch_match_resume at h
  split_ifs at h with h1 h2
  injection h with h
  subst h
  exact ⟨List.perm_insertionSort _ _, List.sorted_insertionSort _ _,
    fun c => filter_fit_insertionSort c _⟩

/-- Witness for C6 at a concrete batch call with two jobs. -/
theorem batch_match_sorted_witness :
    (List.insertionSort fitGE
        ([⟨"backend".data, ["python".data], []⟩,
          ⟨"frontend".data, ["javascript".data], []⟩].map
          (matchRow (fun _ _ => none) ["python".data]))).Perm
      ([⟨"backend".data, ["python".data], []⟩,
        ⟨"frontend".data, ["javascript".data], []⟩].map
        (matchRow (fun _ _ => none) ["python".data])) ∧
    List.Sorted fitGE
      (List.insertionSort fitGE
        ([⟨"backend".data, ["python".data], []⟩,
          ⟨"frontend".data, ["javascript".data], []⟩].map
          (matchRow (fun _ _ => none) ["python".data]))) ∧
    ∀ c : ℚ,
      (List.insertionSort fitGE
          ([⟨"backend".data, ["python".data], []⟩,
            ⟨"frontend".data, ["javascript".data], []⟩].map
            (matchRow (fun _ _ => none) ["python".data]))).filter
        (fun x => decide (x.fit_score = c)) =
      (([⟨"backend".data, ["python".data], []⟩,
          ⟨"frontend".data, ["javascript".data], []⟩] :
            List JobRequirement).map
          (matchRow (fun _ _ => none) ["python".data])).filter
        (fun x => decide (x.fit_score = c)) :=
  batch_match_sorted (fun _ _ => none) ["python".data]
    [⟨"backend".data, ["python".data], []⟩,
     ⟨"frontend".data, ["javascript".data], []⟩] _ rfl

/-! Name extraction: `ResumeParser.extract_name`
(`utils/resume_parser.py` lines 267–293). -/

/-- Helper for Python `str.split()` with no separator: accumulate the
current word (reversed) and split on whitespace runs, dropping empties. -/
def splitWsAux : Str → Str → List Str
  | [], acc => if acc = [] then [] else [acc.reverse]
  | c :: rest, acc =>
    if wsChar c then
      (if acc = [] then splitWsAux rest [] else acc.reverse :: splitWsAux rest [])
    else splitWsAux rest (c :: acc)

/-- Python `str.split()`: split on whitespace runs, no empty tokens. -/
def splitWs (l : Str) : List Str := splitWsAux l []

/-- Python `str.isalpha()` (ASCII): non-empty and all letters. -/
def isalphaStr (s : Str) : Bool :=
  !s.isEmpty && s.all (fun c => ('a' ≤ c && c ≤ 'z') || ('A' ≤ c && c ≤ 'Z'))

/-- The header lines skipped by `extract_name`. -/
def nameHeaders : List Str :=
  ["RESUME".data, "CV".data, "CURRICULUM VITAE".data]

/-- `str.upper()` on a whole string. -/
def upperStr (l : Str) : Str := l.map upperChar

/-- The per-line test of `extract_name`: 1–4 whitespace-separated words,
each purely alphabetic after `word.replace('.', '')` removes every
period. -/
def valid_name_line (line : Str) : Bool :=
  (1 ≤ (splitWs line).length && (splitWs line).length ≤ 4) &&
    (splitWs line).all (fun w => isalphaStr (w.filter (fun c => decide (c ≠ '.'))))

/-- The scan loop of `extract_name` over the windowed lines: skip empty and
header lines, return the first stripped line passing `valid_name_line`. -/
def findName : List Str → Option Str
  | [] => none
  | l :: ls =>
    if strip l = [] ∨ upperStr (strip l) ∈ nameHeaders then findName ls
    else if valid_name_line (strip l) then some (strip l)
    else findName ls

/-- `ResumeParser.extract_name`: strip the text, split on newlines, scan the
first 5 lines (`lines[:5]`, so blank lines consume window slots). -/
def extract_name (text : Str) : Option Str :=
  findName (((strip text).splitOn '\n').take 5)

/-- `word` with its trailing periods removed, as the claim words it. -/
def dropTrailingPeriods (w : Str) : Str :=
  (w.reverse.dropWhile (fun c => decide (c = '.'))).reverse

/-- The per-line test as the claim words it: every token minus its
*trailing* periods is purely alphabetic. -/
def valid_name_line_claimed (line : Str) : Bool :=
  (1 ≤ (splitWs line).length && (splitWs line).length ≤ 4) &&
    (splitWs line).all (fun w => isalphaStr (dropTrailingPeriods w))

/-- `extract_name` as claim C8 describes it: scan the first 5 *non-empty*
lines of the text, skip header lines, and use the trailing-period token
test.  Used only to compare the claim against the code. -/
def extract_name_claimed (text : Str) : Option Str :=
  ((((text.splitOn '\n').map strip).filter (fun l => decide (l ≠ []))).take 5
      |>.filter (fun l => decide (upperStr l ∉ nameHeaders))).find?
    valid_name_line_claimed

/-- C8 (amended): `extract_name` scans the first 5 lines of the stripped
text (blank lines inside the window are skipped but still consume window
slots), skips RESUME/CV/CURRICULUM VITAE header lines case-insensitively,
and returns the first remaining stripped line whose 1–4 whitespace-separated
tokens are all purely alphabetic once *all* periods are removed; `none`
otherwise. -/
theorem extract_name_spec (text : Str) :
    extract_name text =
      (((((strip text).splitOn '\n').take 5).map strip).filter
        (fun l => decide (l ≠ [] ∧ upperStr l ∉ nameHeaders))).find?
        valid_name_line := by
  unfold extract_name
  generalize ((strip text).splitOn '\n').take 5 = ls
  induction ls with
  | nil => rfl
  | cons l ls ih =>
    simp only [List.map_cons, List.filter_cons]
    by_cases hskip : strip l = [] ∨ upperStr (strip l) ∈ nameHeaders
    · have hcond : decide (strip l ≠ [] ∧ upperStr (strip l) ∉ nameHeaders) = false := by
        simp only [decide_eq_false_iff_not]
        tauto
      rw [hcond]
      simp only [Bool.false_eq_true, if_false]
      rw [findName, if_pos hskip]
      exact ih
    · have hcond : decide (strip l ≠ [] ∧ upperStr (strip l) ∉ nameHeaders) = true := by
        simp only [decide_eq_true_eq]
        tauto
      rw [hcond]
      simp only [if_true]
      rw [findName, if_neg hskip]
      by_cases h2 : valid_name_line (strip l)
      · rw [if_pos h2, List.find?_cons_of_pos _ h2]
      · rw [if_neg h2, List.find?_cons_of_neg _ (by simpa using h2)]
        exact ih

/-- C8 counterexample: at "RESUME\n\n\n\n\nJohn Smith" the claimed
first-5-non-empty-lines scan finds "John Smith" but the code scans
`lines[:5]` (blank lines consume the window) and returns none; at
"J.R Smith" the code accepts the line (it removes *all* periods before the
alphabetic test) while the claimed trailing-period test rejects it. -/
theorem extract_name_counterexample :
    extract_name "RESUME\n\n\n\n\nJohn Smith".data = none ∧
    extract_name_claimed "RESUME\n\n\n\n\nJohn Smith".data = some "John Smith".data ∧
    extract_name "J.R Smith".data = some "J.R Smith".data ∧
    extract_name_claimed "J.R Smith".data = none := by
  refine ⟨by decide, by decide, by decide, by decide⟩

/-! Education extraction: `ResumeParser.extract_education`
(`utils/resume_parser.py` lines 334–406). -/

/-- One education entry built by `extract_education`. -/
structure EduEntry where
  degree : Str
  institution : Option Str
  year : Option Str
  score : Option Str

/-- A regex match as the scan uses it: `match.start()`, `match.end()` and
`match.group(0)`. -/
structure ReMatch where
  mstart : ℕ
  mstop : ℕ
  text : Str

/-- Oracle standing for Python's `re` engine (not part of the repository):
`finditer pat text` lists the matches of `pat` in `text`; `search_group pat
text` is the text captured by the first match of `pat` (the section body
for the section pattern, `group(0)` or `group(1)` for the year, score and
institution searches). -/
structure ReOracle where
  finditer : Str → Str → List ReMatch
  search_group : Str → Str → Option Str

/-- The education-section pattern of `extract_education`. -/
def edu_section_pattern : Str :=
  "(?:ACADEMIC QUALIFICATION|EDUCATION|EDUCATIONAL QUALIFICATION)[\\s:]*\\n(.*?)(?:\\n\\n[A-Z]\x7b2,\x7d|\\nWORK|EXPERIENCE|SKILLS|PROJECTS|$)".data

/-- The year pattern searched in the context window. -/
def year_pattern : Str := "(20\\d\x7b2\x7d|19\\d\x7b2\x7d)".data

/-- The percentage/CGPA pattern searched in the context window. -/
def score_pattern : Str := "(\\d+\\.?\\d*)\\s*(?:%|CGPA|cgpa)".data

/-- The institution pattern searched in the context window. -/
def institution_pattern : Str :=
  "([A-Z][A-Za-z\\s]+(?:University|College|Board|Institute))".data

/-- The 11 ordered degree patterns with their canonical labels. -/
def degree_patterns : List (Str × Str) :=
  [("B\\.?Tech\\s+(?:CSE|CS|IT|ECE|EE|ME)?(?:\\s+AI\\s*&?\\s*ML)?".data, "B.Tech".data),
   ("Bachelor\\s+of\\s+Technology".data, "B.Tech".data),
   ("M\\.?Tech".data, "M.Tech".data),
   ("Master\\s+of\\s+Technology".data, "M.Tech".data),
   ("B\\.?E\\.?".data, "B.E.".data),
   ("Bachelor\\s+of\\s+Engineering".data, "B.E.".data),
   ("BCA".data, "BCA".data),
   ("MCA".data, "MCA".data),
   ("MBA".data, "MBA".data),
   ("12th|XII|Higher\\s+Secondary".data, "12th".data),
   ("10th|X(?:\\s+|$)".data, "10th".data)]

/-- The entry built for one accepted match: a +-(50 before, 150 after)
character context window around the match (`max(0, start-50)` is the
truncated subtraction on `ℕ`), searched for year, score and institution. -/
def eduEntry (rx : ReOracle) (edu_text : Str) (m : ReMatch) : EduEntry :=
  let context_start := m.mstart - 50
  let context_stop := min edu_text.length (m.mstop + 150)
  let context := (edu_text.drop context_start).take (context_stop - context_start)
  { degree := strip m.text
    institution := rx.search_group institution_pattern context
    year := rx.search_group year_pattern context
    score := rx.search_group score_pattern context }

/-- The inner loop of `extract_education` over one pattern's matches,
threading the `seen_degrees` set and the accumulated entries (paired here
with their canonical label for analysis). -/
def eduScanMatches (rx : ReOracle) (edu_text : Str) (degree_name : Str) :
    List ReMatch → List Str → List (Str × EduEntry) →
      List Str × List (Str × EduEntry)
  | [], seen, acc => (seen, acc)
  | m :: rest, seen, acc =>
    if degree_name ∈ seen then eduScanMatches rx edu_text degree_name rest seen acc
    else
      eduScanMatches rx edu_text degree_name rest (degree_name :: seen)
        (acc ++ [(degree_name, eduEntry rx edu_text m)])

/-- The outer loop of `extract_education` over the 11 degree patterns. -/
def eduScanPatterns (rx : ReOracle) (edu_text : Str) :
    List (Str × Str) → List Str → List (Str × EduEntry) → List (Str × EduEntry)
  | [], _, acc => acc
  | (pat, degree_name) :: ps, seen, acc =>
    let r := eduScanMatches rx edu_text degree_name (rx.finditer pat edu_text) seen acc
    eduScanPatterns rx edu_text ps r.1 r.2

/-- `ResumeParser.extract_education`, with each entry paired with the
canonical label whose pattern produced it. -/
def extract_education_labeled (rx : ReOracle) (text : Str) : List (Str × EduEntry) :=
  match rx.search_group edu_section_pattern text with
  | none => []
  | some edu_text => eduScanPatterns rx edu_text degree_patterns [] []

/-- `ResumeParser.extract_education`: the entries themselves. -/
def extract_education (rx : ReOracle) (text : Str) : List EduEntry :=
  (extract_education_labeled rx text).map Prod.snd

theorem eduScanMatches_inv (rx : ReOracle) (t name : Str) :
    ∀ (ms : List ReMatch) (seen : List Str) (acc : List (Str × EduEntry)),
      (∀ x ∈ acc.map Prod.fst, x ∈ seen) → (acc.map Prod.fst).Nodup →
      (∀ x ∈ (eduScanMatches rx t name ms seen acc).2.map Prod.fst,
          x ∈ (eduScanMatches rx t name ms seen acc).1) ∧
      ((eduScanMatches rx t name ms seen acc).2.map Prod.fst).Nodup ∧
      (∀ x ∈ seen, x ∈ (eduScanMatches rx t name ms seen acc).1) ∧
      (∀ x ∈ (eduScanMatches rx t name ms seen acc).2.map Prod.fst,
          x ∈ acc.map Prod.fst ∨ x = name) := by
  intro ms
  induction ms with
  | nil =>
    intro seen acc h1 h2
    exact ⟨h1, h2, fun x hx => hx, fun x hx => Or.inl hx⟩
  | cons m rest ih =>
    intro seen acc h1 h2
    by_cases hseen : name ∈ seen
    · rw [eduScanMatches, if_pos hseen]
      exact ih seen acc h1 h2
    · rw [eduScanMatches, if_neg hseen]
      have h1' : ∀ x ∈ (acc ++ [(name, eduEntry rx t m)]).map Prod.fst,
          x ∈ name :: seen := by
        intro x hx
        simp only [List.map_append, List.map_cons, List.map_nil,
          List.mem_append, List.mem_singleton] at hx
        rcases hx with hx | hx
        · exact List.mem_cons_of_mem _ (h1 x hx)
        · simp [hx]
      have h2' : ((acc ++ [(name, eduEntry rx t m)]).map Prod.fst).Nodup := by
        rw [List.map_append]
        refine List.Nodup.append h2 (by simp) ?_
        intro a ha hb
        simp only [List.map_cons, List.map_nil, List.mem_singleton] at hb
        subst hb
        exact hseen (h1 a ha)
      obtain ⟨g1, g2, g3, g4⟩ := ih (name :: seen) (acc ++ [(name, eduEntry rx t m)]) h1' h2'
      refine ⟨g1, g2, ?_, ?_⟩
      · intro x hx
        exact g3 x (List.mem_cons_of_mem _ hx)
      · intro x hx
        rcases g4 x hx with h5 | h5
        · simp only [List.map_append, List.map_cons, List.map_nil,
            List.mem_append, List.mem_singleton] at h5
          rcases h5 with h5 | h5
          · exact Or.inl h5
          · exact Or.inr h5
        · exact Or.inr h5

theorem eduScanPatterns_inv (rx : ReOracle) (t : Str) :
    ∀ (ps : List (Str × Str)) (seen : List Str) (acc : List (Str × EduEntry)),
      (∀ x ∈ acc.map Prod.fst, x ∈ seen) → (acc.map Prod.fst).Nodup →
      ((eduScanPatterns rx t ps seen acc).map Prod.fst).Nodup ∧
      (∀ x ∈ (eduScanPatterns rx t ps seen acc).map Prod.fst,
          x ∈ acc.map Prod.fst ∨ x ∈ ps.map Prod.snd) := by
  intro ps
  induction ps with
  | nil =>
    intro seen acc h1 h2
    exact ⟨h2, fun x hx => Or.inl hx⟩
  | cons p ps ih =>
    obtain ⟨pat, name⟩ := p
    intro seen acc h1 h2
    obtain ⟨g1, g2, g3, g4⟩ :=
      eduScanMatches_inv rx t name (rx.finditer pat t) seen acc h1 h2
    have hunf : eduScanPatterns rx t ((pat, name) :: ps) seen acc =
        eduScanPatterns rx t ps
          (eduScanMatches rx t name (rx.finditer pat t) seen acc).1
          (eduScanMatches rx t name (rx.finditer pat t) seen acc).2 := rfl
    rw [hunf]
    obtain ⟨k1, k2⟩ := ih _ _ g1 g2
    refine ⟨k1, ?_⟩
    intro x hx
    rcases k2 x hx with h5 | h5
    · rcases g4 x h5 with h6 | h6
      · exact Or.inl h6
      · exact Or.inr (by simp [h6])
    · exact Or.inr (by simp [h5])

/-- C9: the education list has at most one entry per canonical degree label:
the labels of the produced entries are pairwise distinct and drawn from the
8 canonical labels, and the entry list is in one-to-one correspondence with
that label list (subsequent matches of an already-seen label are skipped by
construction). -/
theorem extract_education_unique_labels (rx : ReOracle) (text : Str) :
    ((extract_education_labeled rx text).map Prod.fst).Nodup ∧
    (∀ lab ∈ (extract_education_labeled rx text).map Prod.fst,
        lab ∈ ["B.Tech".data, "M.Tech".data, "B.E.".data, "BCA".data,
          "MCA".data, "MBA".data, "12th".data, "10th".data]) ∧
    (extract_education rx text).length = (extract_education_labeled rx text).length := by
  unfold extract_education extract_education_labeled
  cases h : rx.search_group edu_section_pattern text with
  | none => simp
  | some edu_text =>
    obtain ⟨k1, k2⟩ := eduScanPatterns_inv rx edu_text degree_patterns [] []
      (by simp) (by simp)
    refine ⟨k1, ?_, by simp⟩
    intro lab hl
    rcases k2 lab hl with h3 | h3
    · simp at h3
    · have himp : ∀ x ∈ degree_patterns.map Prod.snd,
          x ∈ ["B.Tech".data, "M.Tech".data, "B.E.".data, "BCA".data,
            "MCA".data, "MBA".data, "12th".data, "10th".data] := by decide
      exact himp lab h3
